import Mathlib

/-!
# Verification of the face-emotion-analyzer core (TTL cache + worker pool)

Shallow embedding of the two core subsystems of the repository:

* `internal/cache/manager.go` — a size-bounded TTL cache (`Manager` with
  `Get`, `Set`, `GetOrCompute`, `evict`, `cleanup`, `Clear`, `estimateSize`);
* `internal/worker/pool.go` — an adaptive worker pool (`Pool` with
  `Submit`, `Shutdown`, `monitorWorkers`, `startWorker`, `worker.run`).

Time instants (`time.Time`) are embedded as `Int` (nanoseconds since epoch);
`time.Time.After`/`Before` become strict `<` on `Int`.  Go's `int64`/`int32`
are embedded as `Int` (the operations involved stay far from the overflow
boundary, so no wrap-around is modelled).  Go maps are embedded as
association lists with in-place replacement on update; Go's nondeterministic
map iteration order is fixed to list order (all properties proved here are
order-independent or quantify over the snapshot explicitly).
-/

set_option maxHeartbeats 1000000

namespace FaceEmotion

/-! ## Cache: values and `estimateSize`

`estimateSize` in `manager.go` switches on the dynamic type of an
`interface{}` value: `nil` → 0, `string`/`[]byte` → length, numeric scalars
and `bool` → 8, `map[string]interface{}` → Σ (len key + size val),
`[]interface{}` → Σ size elem, `struct{}` → 64, anything else → 32.
`GoValue` mirrors exactly the cases of that type switch. -/

inductive GoValue where
  | goNil : GoValue
  | goString : String → GoValue
  | goBytes : List Nat → GoValue
  | goInt : Int → GoValue
  | goBool : Bool → GoValue
  | goMap : List (String × GoValue) → GoValue
  | goSlice : List GoValue → GoValue
  | goEmptyStruct : GoValue
  | goOther : GoValue

mutual

/-- Embedding of `estimateSize` (manager.go, lines 78–110). -/
def estimateSize : GoValue → Int
  | .goNil => 0
  | .goString s => (s.length : Int)
  | .goBytes bs => (bs.length : Int)
  | .goInt _ => 8
  | .goBool _ => 8
  | .goMap entries => estimateMapSize entries
  | .goSlice elems => estimateSliceSize elems
  | .goEmptyStruct => 64
  | .goOther => 32

/-- The `map[string]interface{}` arm of `estimateSize`: Σ (len k + size v). -/
def estimateMapSize : List (String × GoValue) → Int
  | [] => 0
  | (k, v) :: rest => (k.length : Int) + estimateSize v + estimateMapSize rest

/-- The `[]interface{}` arm of `estimateSize`: Σ size v. -/
def estimateSliceSize : List GoValue → Int
  | [] => 0
  | v :: rest => estimateSize v + estimateSliceSize rest

end

/-- Errors of the cache package (`internal/errors`): `ErrKeyNotFound`,
`ErrSizeExceeded`, plus arbitrary errors produced by user compute
functions. -/
inductive GoError where
  | keyNotFound : GoError
  | sizeExceeded : GoError
  | custom : String → GoError
deriving DecidableEq, Repr

/-! ## Cache: items, the manager state, and the map embedding -/

/-- Embedding of `cache.Item`: value, absolute expiration instant, size. -/
structure Item where
  value : GoValue
  expiration : Int
  size : Int

/-- The `map[string]Item` of the manager, as an association list. -/
abbrev ItemMap := List (String × Item)

/-- Embedding of Go map lookup `item, ok := m.items[key]`. -/
def mapLookup (key : String) : ItemMap → Option Item
  | [] => none
  | (k, it) :: rest => if k = key then some it else mapLookup key rest

/-- Embedding of `delete(m.items, key)`: drops every binding of `key`. -/
def mapDelete (key : String) : ItemMap → ItemMap
  | [] => []
  | (k, it) :: rest =>
      if k = key then mapDelete key rest else (k, it) :: mapDelete key rest

/-- Embedding of Go map update `m.items[key] = it`: replaces the binding in
place when the key is present, otherwise appends a new binding. -/
def mapInsert (key : String) (it : Item) : ItemMap → ItemMap
  | [] => [(key, it)]
  | (k, old) :: rest =>
      if k = key then (k, it) :: rest else (k, old) :: mapInsert key it rest

/-- Total of the `Size` fields of all items currently in the map. -/
def sumSizes (m : ItemMap) : Int :=
  (m.map (fun p => p.2.size)).sum

/-- Embedding of `cache.Manager`: the key→Item map, the configured byte
budget, and the running size counter.  (The mutex, cleanup interval and
`done` channel do not influence the sequential semantics.) -/
structure Manager where
  items : ItemMap
  maxSize : Int
  currentSize : Int

/-- `NewManager` with `Config{MaxSize: maxSize}`: empty map, zero counter. -/
def newManager (maxSize : Int) : Manager :=
  { items := [], maxSize := maxSize, currentSize := 0 }

/-- Embedding of `Item.isExpired`: `time.Now().After(i.Expiration)`, i.e.
strictly `now > expiration`. -/
def Item.isExpired (i : Item) (now : Int) : Bool :=
  decide (now > i.expiration)

/-- Embedding of `Manager.Get` (manager.go, lines 194–203).  Returns the Go
pair `(interface{}, error)`. -/
def Manager.get (m : Manager) (now : Int) (key : String) :
    GoValue × Option GoError :=
  match mapLookup key m.items with
  | none => (.goNil, some .keyNotFound)
  | some item =>
      if item.isExpired now then (.goNil, some .keyNotFound)
      else (item.value, none)

/-! ## Cache: eviction -/

/-- Embedding of the local `itemInfo` struct of `Manager.evict`. -/
structure ItemInfo where
  key : String
  expiration : Int
  size : Int

/-- The snapshot `evict` builds before sorting: one `itemInfo` per map
entry. -/
def snapshot (m : ItemMap) : List ItemInfo :=
  m.map (fun p => ⟨p.1, p.2.expiration, p.2.size⟩)

/-- Insert one `itemInfo` into a list that is ascending by expiration,
keeping it ascending. -/
def insertByExpiration (info : ItemInfo) : List ItemInfo → List ItemInfo
  | [] => [info]
  | head :: tail =>
      if info.expiration ≤ head.expiration then info :: head :: tail
      else head :: insertByExpiration info tail

/-- Embedding of `sort.Slice(items, expiration[i].Before(expiration[j]))`:
sorts the snapshot ascending by expiration time.  (`sort.Slice` is an
unstable sort; any expiration-ascending permutation is a faithful model, and
insertion sort is one.) -/
def sortByExpiration : List ItemInfo → List ItemInfo
  | [] => []
  | head :: tail => insertByExpiration head (sortByExpiration tail)

/-- The deletion loop of `Manager.evict` (manager.go, lines 64–74): walk the
sorted snapshot; stop as soon as `currentSize + requiredSize ≤ maxSize`;
otherwise delete the entry (if still present) and subtract its size. -/
def evictLoop (req : Int) : List ItemInfo → Manager → Manager
  | [], m => m
  | info :: rest, m =>
      if m.currentSize + req ≤ m.maxSize then m
      else
        match mapLookup info.key m.items with
        | some cur =>
            evictLoop req rest
              { m with items := mapDelete info.key m.items,
                       currentSize := m.currentSize - cur.size }
        | none => evictLoop req rest m

/-- Embedding of `Manager.evict` (manager.go, lines 44–75). -/
def Manager.evict (m : Manager) (req : Int) : Manager :=
  evictLoop req (sortByExpiration (snapshot m.items)) m

/-- Embedding of `Manager.Set` (manager.go, lines 206–229).  Returns the
updated manager and the Go `error` result.  Note the source adds the new
size to `currentSize` without subtracting the size of a previous entry under
the same key. -/
def Manager.set (m : Manager) (now : Int) (key : String) (value : GoValue)
    (ttl : Int) : Manager × Option GoError :=
  let size := estimateSize value
  if size > m.maxSize then (m, some .sizeExceeded)
  else
    let m1 := if m.currentSize + size > m.maxSize then m.evict size else m
    if m1.currentSize + size > m1.maxSize then (m1, some .sizeExceeded)
    else
      ({ m1 with
          items := mapInsert key ⟨value, now + ttl, size⟩ m1.items,
          currentSize := m1.currentSize + size }, none)

/-- Embedding of `Manager.cleanup` (manager.go, lines 154–165): remove every
item whose expiration is strictly before `now`, subtracting its size.  (The
Go loop deletes during range iteration; its net effect on the map and the
counter is iteration-order independent and is what is written here.) -/
def Manager.cleanup (m : Manager) (now : Int) : Manager :=
  { m with
      items := m.items.filter (fun p => !decide (p.2.expiration < now)),
      currentSize :=
        m.currentSize -
          sumSizes (m.items.filter (fun p => decide (p.2.expiration < now))) }

/-- Embedding of `Manager.Clear` (manager.go, lines 178–184). -/
def Manager.clear (m : Manager) : Manager :=
  { m with items := [], currentSize := 0 }

/-- Embedding of `Manager.GetOrCompute` (manager.go, lines 232–252).  The
compute function is represented by the Go pair it returns when invoked; the
final component counts how many times it was invoked. -/
def Manager.getOrCompute (m : Manager) (now : Int) (key : String)
    (compute : GoValue × Option GoError) (ttl : Int) :
    Manager × (GoValue × Option GoError) × Nat :=
  match m.get now key with
  | (value, none) => (m, (value, none), 0)
  | (_, some err) =>
      if err ≠ .keyNotFound then (m, (.goNil, some err), 0)
      else
        match compute with
        | (_, some cerr) => (m, (.goNil, some cerr), 1)
        | (value, none) =>
            match m.set now key value ttl with
            | (m1, some serr) => (m1, (.goNil, some serr), 1)
            | (m1, none) => (m1, (value, none), 1)

/-- Well-formedness of a manager state: keys are unique (it embeds a Go
map), the size counter accounts exactly for the live items, and item sizes
are non-negative. -/
def Manager.WF (m : Manager) : Prop :=
  (m.items.map Prod.fst).Nodup ∧
  m.currentSize = sumSizes m.items ∧
  ∀ p ∈ m.items, 0 ≤ p.2.size

instance (m : Manager) : Decidable m.WF := by
  unfold Manager.WF
  infer_instance

end FaceEmotion


namespace FaceEmotion

/-! ## Basic lemmas about the map embedding -/

theorem mapLookup_mem {key : String} {it : Item} :
    ∀ {l : ItemMap}, mapLookup key l = some it → (key, it) ∈ l := by
  intro l
  induction l with
  | nil => intro h; simp [mapLookup] at h
  | cons head tail ih =>
      obtain ⟨k1, it1⟩ := head
      intro h
      simp only [mapLookup] at h
      by_cases hk : k1 = key
      · rw [if_pos hk] at h
        have hit : it1 = it := by injection h
        subst hit; subst hk
        exact List.mem_cons_self _ _
      · rw [if_neg hk] at h
        exact List.mem_cons_of_mem _ (ih h)

theorem mapLookup_of_mem_nodup {key : String} {it : Item} :
    ∀ {l : ItemMap}, (l.map Prod.fst).Nodup → (key, it) ∈ l →
      mapLookup key l = some it := by
  intro l
  induction l with
  | nil => intro _ h; simp at h
  | cons head tail ih =>
      obtain ⟨k1, it1⟩ := head
      intro hnd hmem
      rw [List.map_cons, List.nodup_cons] at hnd
      rcases List.mem_cons.mp hmem with heq | htail
      · rw [Prod.mk.injEq] at heq
        simp only [mapLookup, heq.1, if_pos, heq.2]
      · have hk : k1 ≠ key := by
          intro hcontra
          apply hnd.1
          rw [hcontra]
          exact List.mem_map.mpr ⟨(key, it), htail, rfl⟩
        simp only [mapLookup, if_neg hk]
        exact ih hnd.2 htail

theorem mapLookup_filter_of_pred {key : String} {it : Item}
    (p : String × Item → Bool) :
    ∀ {l : ItemMap}, mapLookup key l = some it → p (key, it) = true →
      mapLookup key (l.filter p) = some it := by
  intro l
  induction l with
  | nil => intro h _; simp [mapLookup] at h
  | cons head tail ih =>
      obtain ⟨k1, it1⟩ := head
      intro h hp
      simp only [mapLookup] at h
      by_cases hk : k1 = key
      · rw [if_pos hk] at h
        rw [Option.some.injEq] at h
        rw [hk, h, List.filter_cons, if_pos hp]
        simp [mapLookup]
      · rw [if_neg hk] at h
        rw [List.filter_cons]
        by_cases hph : p (k1, it1) = true
        · rw [if_pos hph]
          simp only [mapLookup, if_neg hk]
          exact ih h hp
        · rw [if_neg hph]
          exact ih h hp

theorem mapLookup_mapInsert (key : String) (it : Item) :
    ∀ (l : ItemMap), mapLookup key (mapInsert key it l) = some it := by
  intro l
  induction l with
  | nil => simp [mapInsert, mapLookup]
  | cons head tail ih =>
      obtain ⟨k1, it1⟩ := head
      simp only [mapInsert]
      by_cases hk : k1 = key
      · rw [if_pos hk]
        simp [mapLookup, hk]
      · rw [if_neg hk]
        simp only [mapLookup, if_neg hk]
        exact ih

theorem mapLookup_mapDelete_ne {key other : String} (hne : other ≠ key) :
    ∀ (l : ItemMap), mapLookup key (mapDelete other l) = mapLookup key l := by
  intro l
  induction l with
  | nil => rfl
  | cons head tail ih =>
      obtain ⟨k1, it1⟩ := head
      simp only [mapDelete, mapLookup]
      by_cases hk : k1 = other
      · rw [if_pos hk]
        have h2 : k1 ≠ key := by rw [hk]; exact hne
        rw [ih, if_neg h2]
      · rw [if_neg hk]
        simp only [mapLookup]
        by_cases hk2 : k1 = key
        · rw [if_pos hk2, if_pos hk2]
        · rw [if_neg hk2, if_neg hk2, ih]

end FaceEmotion

namespace FaceEmotion

/-! ## Claim C8: oversize Set is rejected atomically -/

/-- Claim C8: a value whose estimated size strictly exceeds `maxSize` makes
`Set` fail immediately with the size-exceeded error, returning the manager
state entirely unchanged (no insertion, no eviction, `currentSize`
untouched). -/
theorem set_oversize_rejected (m : Manager) (now : Int) (key : String)
    (value : GoValue) (ttl : Int) (h : estimateSize value > m.maxSize) :
    m.set now key value ttl = (m, some .sizeExceeded) := by
  simp [Manager.set, h]

/-- Witness for `set_oversize_rejected`: a 10-byte string against a 5-byte
budget. -/
theorem set_oversize_rejected_witness :
    estimateSize (GoValue.goString "0123456789") > (newManager 5).maxSize ∧
    (newManager 5).set 0 "k" (GoValue.goString "0123456789") 100 =
      (newManager 5, some GoError.sizeExceeded) :=
  ⟨by decide,
   set_oversize_rejected (newManager 5) 0 "k" (GoValue.goString "0123456789")
     100 (by decide)⟩

/-! ## Claim C10: expiration is strict on both read and sweep -/

/-- Claim C10: an item whose expiration equals the current instant is not
expired: `Get` still returns its value, the background sweep keeps it (the
sweep removes exactly the items whose expiration is strictly before `now`),
and `isExpired` is false at the boundary. -/
theorem expiry_boundary_not_expired (m : Manager) (key : String) (it : Item)
    (now : Int) (hlook : mapLookup key m.items = some it)
    (hexp : it.expiration = now) :
    it.isExpired now = false ∧
    m.get now key = (it.value, none) ∧
    mapLookup key ((m.cleanup now).items) = some it ∧
    (m.cleanup now).items =
      m.items.filter (fun p => !decide (p.2.expiration < now)) := by
  have hnotexp : it.isExpired now = false := by
    simp [Item.isExpired, hexp]
  refine ⟨hnotexp, ?_, ?_, rfl⟩
  · simp [Manager.get, hlook, hnotexp]
  · show mapLookup key
      (m.items.filter (fun p => !decide (p.2.expiration < now))) = some it
    apply mapLookup_filter_of_pred _ hlook
    simp [hexp]

/-- Witness for `expiry_boundary_not_expired`: one item expiring exactly at
the current instant `5`. -/
theorem expiry_boundary_not_expired_witness :
    mapLookup "k"
        (Manager.items ⟨[("k", ⟨GoValue.goNil, 5, 3⟩)], 10, 3⟩) =
      some ⟨GoValue.goNil, 5, 3⟩ ∧
    Item.isExpired ⟨GoValue.goNil, 5, 3⟩ 5 = false ∧
    Manager.get ⟨[("k", ⟨GoValue.goNil, 5, 3⟩)], 10, 3⟩ 5 "k" =
      (GoValue.goNil, none) ∧
    mapLookup "k"
        ((Manager.cleanup ⟨[("k", ⟨GoValue.goNil, 5, 3⟩)], 10, 3⟩ 5).items) =
      some ⟨GoValue.goNil, 5, 3⟩ := by
  have h := expiry_boundary_not_expired
    ⟨[("k", ⟨GoValue.goNil, 5, 3⟩)], 10, 3⟩ "k" ⟨GoValue.goNil, 5, 3⟩ 5
    rfl rfl
  exact ⟨rfl, h.1, h.2.1, h.2.2.1⟩

/-! ## Claim C1: the size-accounting invariant (violated on overwrite)

`Manager.Set` (manager.go, lines 222–228) executes `m.items[key] = Item{...};
m.currentSize += size` without subtracting the size of an entry previously
stored under the same key, so overwriting a key inflates `currentSize` above
the sum of the live items' sizes. -/

/-- Claim C1 (bug demonstration): with `maxSize = 100`, two successive
successful `Set` calls on the same key with a 10-byte string leave the map
holding a single 10-byte item while `currentSize = 20`; the accounting
invariant `currentSize = sumSizes items` is broken, and well-formedness is
lost. -/
theorem set_overwrite_double_counts :
    ((newManager 100).set 0 "k" (GoValue.goString "0123456789") 50).2 =
      none ∧
    ((((newManager 100).set 0 "k" (GoValue.goString "0123456789") 50).1).set
        0 "k" (GoValue.goString "0123456789") 50).2 = none ∧
    (((((newManager 100).set 0 "k" (GoValue.goString "0123456789") 50).1).set
        0 "k" (GoValue.goString "0123456789") 50).1).currentSize = 20 ∧
    sumSizes
      (((((newManager 100).set 0 "k"
          (GoValue.goString "0123456789") 50).1).set
        0 "k" (GoValue.goString "0123456789") 50).1).items = 10 ∧
    decide
      ((((((newManager 100).set 0 "k"
          (GoValue.goString "0123456789") 50).1).set
        0 "k" (GoValue.goString "0123456789") 50).1).WF) = false := by
  exact ⟨rfl, rfl, rfl, rfl, by decide⟩

end FaceEmotion

namespace FaceEmotion

/-! ## Claims C7 and C9: GetOrCompute -/

theorem set_success_lookup (m : Manager) (now : Int) (key : String)
    (value : GoValue) (ttl : Int) (m1 : Manager)
    (h : m.set now key value ttl = (m1, none)) :
    mapLookup key m1.items = some ⟨value, now + ttl, estimateSize value⟩ := by
  simp only [Manager.set] at h
  repeat' split at h
  all_goals
    first
      | (simp only [Prod.mk.injEq] at h
         rw [← h.1]
         exact mapLookup_mapInsert key _ _)
      | simp at h

/-- Claim C7: sequential semantics of `GetOrCompute`.  A hit (unexpired
entry) returns the cached value without invoking the compute function; a
miss invokes it exactly once; a compute error propagates with the manager
state (map and counter) unchanged; on compute success followed by a
successful `Set`, the computed value is stored under the given ttl
(expiration `now + ttl`) and returned. -/
theorem getOrCompute_spec (m : Manager) (now : Int) (key : String)
    (compute : GoValue × Option GoError) (ttl : Int) :
    (∀ v, m.get now key = (v, none) →
        m.getOrCompute now key compute ttl = (m, (v, none), 0)) ∧
    (∀ gv cv ce, m.get now key = (gv, some .keyNotFound) →
        compute = (cv, some ce) →
        m.getOrCompute now key compute ttl = (m, (.goNil, some ce), 1)) ∧
    (∀ gv v m1, m.get now key = (gv, some .keyNotFound) →
        compute = (v, none) →
        m.set now key v ttl = (m1, none) →
        m.getOrCompute now key compute ttl = (m1, (v, none), 1) ∧
        mapLookup key m1.items = some ⟨v, now + ttl, estimateSize v⟩) := by
  refine ⟨?_, ?_, ?_⟩
  · intro v hget
    simp [Manager.getOrCompute, hget]
  · intro gv cv ce hget hcomp
    simp [Manager.getOrCompute, hget, hcomp]
  · intro gv v m1 hget hcomp hset
    constructor
    · simp [Manager.getOrCompute, hget, hcomp, hset]
    · exact set_success_lookup m now key v ttl m1 hset

/-- Witness for `getOrCompute_spec`: a fresh cache computes and stores a
5-byte string (compute invoked once); a second call on the resulting state
returns the cached value without invoking compute. -/
theorem getOrCompute_spec_witness :
    (newManager 100).getOrCompute 0 "k" (GoValue.goString "hello", none) 10 =
      (⟨[("k", ⟨GoValue.goString "hello", 10, 5⟩)], 100, 5⟩,
       (GoValue.goString "hello", none), 1) ∧
    mapLookup "k" (Manager.items
        ⟨[("k", ⟨GoValue.goString "hello", 10, 5⟩)], 100, 5⟩) =
      some ⟨GoValue.goString "hello", 10, 5⟩ ∧
    Manager.getOrCompute
        ⟨[("k", ⟨GoValue.goString "hello", 10, 5⟩)], 100, 5⟩ 0 "k"
        (GoValue.goOther, none) 10 =
      (⟨[("k", ⟨GoValue.goString "hello", 10, 5⟩)], 100, 5⟩,
       (GoValue.goString "hello", none), 0) := by
  have h := (getOrCompute_spec (newManager 100) 0 "k"
    (GoValue.goString "hello", none) 10).2.2 GoValue.goNil
    (GoValue.goString "hello")
    ⟨[("k", ⟨GoValue.goString "hello", 10, 5⟩)], 100, 5⟩ rfl rfl rfl
  have h2 := (getOrCompute_spec
    ⟨[("k", ⟨GoValue.goString "hello", 10, 5⟩)], 100, 5⟩ 0 "k"
    (GoValue.goOther, none) 10).1 (GoValue.goString "hello") rfl
  exact ⟨h.1, h.2, h2⟩

/-- Claim C9: when the compute function succeeds but the subsequent `Set`
fails, `GetOrCompute` returns the Go nil value together with the `Set`
error (the computed value is discarded, not returned uncached), and the
manager state is the one `Set` left behind. -/
theorem getOrCompute_set_failure (m : Manager) (now : Int) (key : String)
    (gv v : GoValue) (ttl : Int) (m1 : Manager) (se : GoError)
    (hget : m.get now key = (gv, some .keyNotFound))
    (hset : m.set now key v ttl = (m1, some se)) :
    m.getOrCompute now key (v, none) ttl = (m1, (.goNil, some se), 1) := by
  simp [Manager.getOrCompute, hget, hset]

/-- Witness for `getOrCompute_set_failure`: computing a 10-byte string for a
cache whose budget is 5 bytes; the store fails with the size-exceeded error
and `GetOrCompute` surfaces it with the nil value. -/
theorem getOrCompute_set_failure_witness :
    (newManager 5).get 0 "k" = (GoValue.goNil, some GoError.keyNotFound) ∧
    (newManager 5).set 0 "k" (GoValue.goString "0123456789") 10 =
      (newManager 5, some GoError.sizeExceeded) ∧
    (newManager 5).getOrCompute 0 "k" (GoValue.goString "0123456789", none)
        10 = (newManager 5, (GoValue.goNil, some GoError.sizeExceeded), 1) :=
  ⟨rfl, rfl,
   getOrCompute_set_failure (newManager 5) 0 "k" GoValue.goNil
     (GoValue.goString "0123456789") 10 (newManager 5) GoError.sizeExceeded
     rfl rfl⟩

end FaceEmotion

namespace FaceEmotion

/-! ## Claim C3: eviction order and outcome

Helper lemmas: `sortByExpiration` produces an expiration-ascending
permutation of its input. -/

theorem insertByExpiration_perm (info : ItemInfo) (l : List ItemInfo) :
    (insertByExpiration info l).Perm (info :: l) := by
  induction l with
  | nil => simp [insertByExpiration]
  | cons head tail ih =>
      unfold insertByExpiration
      by_cases hle : info.expiration ≤ head.expiration
      · rw [if_pos hle]
      · rw [if_neg hle]
        exact (ih.cons head).trans (List.Perm.swap info head tail)

theorem sortByExpiration_perm (l : List ItemInfo) :
    (sortByExpiration l).Perm l := by
  induction l with
  | nil => simp [sortByExpiration]
  | cons head tail ih =>
      exact (insertByExpiration_perm head (sortByExpiration tail)).trans
        (ih.cons head)

theorem insertByExpiration_sorted (info : ItemInfo) (l : List ItemInfo)
    (h : l.Pairwise (fun a b => a.expiration ≤ b.expiration)) :
    (insertByExpiration info l).Pairwise
      (fun a b => a.expiration ≤ b.expiration) := by
  induction l with
  | nil => simp [insertByExpiration]
  | cons head tail ih =>
      rw [List.pairwise_cons] at h
      unfold insertByExpiration
      by_cases hle : info.expiration ≤ head.expiration
      · rw [if_pos hle, List.pairwise_cons]
        refine ⟨?_, List.pairwise_cons.mpr h⟩
        intro b hb
        rcases List.mem_cons.mp hb with rfl | hbtail
        · exact hle
        · exact le_trans hle (h.1 b hbtail)
      · rw [if_neg hle, List.pairwise_cons]
        refine ⟨?_, ih h.2⟩
        intro b hb
        have hmem := (insertByExpiration_perm info tail).mem_iff.mp hb
        rcases List.mem_cons.mp hmem with rfl | hbtail
        · exact le_of_not_le hle
        · exact h.1 b hbtail

theorem sortByExpiration_sorted (l : List ItemInfo) :
    (sortByExpiration l).Pairwise
      (fun a b => a.expiration ≤ b.expiration) := by
  induction l with
  | nil => simp [sortByExpiration]
  | cons head tail ih => exact insertByExpiration_sorted head _ ih

/-- Total of the `size` fields of a snapshot list. -/
def infoSizes (l : List ItemInfo) : Int :=
  (l.map ItemInfo.size).sum

/-- Delete the keys of the given snapshot entries from the map, in order. -/
def deleteKeys (infos : List ItemInfo) (items : ItemMap) : ItemMap :=
  infos.foldl (fun acc info => mapDelete info.key acc) items

/-- The snapshot entries are backed by the manager's map: their keys are
distinct and each is still bound to an item carrying the recorded size. -/
def InfosBound (infos : List ItemInfo) (m : Manager) : Prop :=
  (infos.map ItemInfo.key).Nodup ∧
  ∀ info ∈ infos, ∃ it,
    mapLookup info.key m.items = some it ∧ it.size = info.size

theorem evictLoop_maxSize (req : Int) :
    ∀ (infos : List ItemInfo) (m : Manager),
      (evictLoop req infos m).maxSize = m.maxSize := by
  intro infos
  induction infos with
  | nil => intro m; rfl
  | cons info rest ih =>
      intro m
      unfold evictLoop
      by_cases hfit : m.currentSize + req ≤ m.maxSize
      · rw [if_pos hfit]
      · rw [if_neg hfit]
        cases hlook : mapLookup info.key m.items with
        | some cur => simp only [hlook]; rw [ih]
        | none => simp only [hlook]; rw [ih]

end FaceEmotion

namespace FaceEmotion

theorem evictLoop_spec (req : Int) :
    ∀ (infos : List ItemInfo) (m : Manager), InfosBound infos m →
    ∃ k, k ≤ infos.length ∧
      evictLoop req infos m =
        { items := deleteKeys (infos.take k) m.items,
          maxSize := m.maxSize,
          currentSize := m.currentSize - infoSizes (infos.take k) } ∧
      (∀ j, j < k →
        m.currentSize - infoSizes (infos.take j) + req > m.maxSize) ∧
      (k < infos.length →
        m.currentSize - infoSizes (infos.take k) + req ≤ m.maxSize) := by
  intro infos
  induction infos with
  | nil =>
      intro m _
      refine ⟨0, Nat.le_refl 0, ?_, ?_, ?_⟩
      · cases m
        simp [evictLoop, deleteKeys, infoSizes]
      · intro j hj; exact absurd hj (Nat.not_lt_zero j)
      · intro h; exact absurd h (Nat.not_lt_zero 0)
  | cons info rest ih =>
      intro m hb
      by_cases hfit : m.currentSize + req ≤ m.maxSize
      · refine ⟨0, Nat.zero_le _, ?_, ?_, ?_⟩
        · cases m with
          | mk items maxSize currentSize =>
              simp only [evictLoop, deleteKeys, infoSizes]
              rw [if_pos hfit]
              simp
        · intro j hj; exact absurd hj (Nat.not_lt_zero j)
        · intro _
          simpa [infoSizes] using hfit
      · obtain ⟨hnd, hall⟩ := hb
        obtain ⟨it, hlook, hsize⟩ := hall info (List.mem_cons_self _ _)
        have hstep : evictLoop req (info :: rest) m =
            evictLoop req rest
              { m with items := mapDelete info.key m.items,
                       currentSize := m.currentSize - it.size } := by
          conv_lhs => rw [evictLoop]
          rw [if_neg hfit, hlook]
        rw [List.map_cons, List.nodup_cons] at hnd
        have hb' : InfosBound rest
            { m with items := mapDelete info.key m.items,
                     currentSize := m.currentSize - it.size } := by
          refine ⟨hnd.2, ?_⟩
          intro info' hmem'
          obtain ⟨it', hlook', hsize'⟩ := hall info' (List.mem_cons_of_mem _ hmem')
          refine ⟨it', ?_, hsize'⟩
          show mapLookup info'.key (mapDelete info.key m.items) = some it'
          rw [mapLookup_mapDelete_ne ?_ m.items]
          · exact hlook'
          · intro hcontra
            apply hnd.1
            rw [hcontra]
            exact List.mem_map_of_mem ItemInfo.key hmem'
        obtain ⟨k, hk, heq, hmin, hstop⟩ := ih _ hb'
        refine ⟨k + 1, Nat.succ_le_succ hk, ?_, ?_, ?_⟩
        · rw [hstep, heq]
          simp only [List.take_succ_cons, deleteKeys, List.foldl_cons,
            infoSizes, List.map_cons, List.sum_cons, hsize]
          congr 1
          omega
        · intro j hj
          match j with
          | 0 =>
              simp only [List.take_zero, infoSizes, List.map_nil,
                List.sum_nil]
              omega
          | Nat.succ j' =>
              have hj' : j' < k := Nat.lt_of_succ_lt_succ hj
              have := hmin j' hj'
              simp only [List.take_succ_cons, infoSizes, List.map_cons,
                List.sum_cons, hsize] at this ⊢
              omega
        · intro hklen
          have hklen' : k < rest.length := by
            simpa using Nat.lt_of_succ_lt_succ hklen
          have := hstop hklen'
          simp only [List.take_succ_cons, infoSizes, List.map_cons,
            List.sum_cons, hsize] at this ⊢
          omega

end FaceEmotion

namespace FaceEmotion

theorem evict_maxSize (m : Manager) (req : Int) :
    (m.evict req).maxSize = m.maxSize :=
  evictLoop_maxSize req _ m

theorem wf_infosBound (m : Manager) (hwf : m.WF) :
    InfosBound (sortByExpiration (snapshot m.items)) m := by
  constructor
  · have hperm := (sortByExpiration_perm (snapshot m.items)).map ItemInfo.key
    rw [List.Perm.nodup_iff hperm]
    have hkeys : (snapshot m.items).map ItemInfo.key =
        m.items.map Prod.fst := by
      simp [snapshot]
    rw [hkeys]
    exact hwf.1
  · intro info hmem
    have hmem' : info ∈ snapshot m.items :=
      (sortByExpiration_perm (snapshot m.items)).mem_iff.mp hmem
    simp only [snapshot, List.mem_map] at hmem'
    obtain ⟨p, hp, hpe⟩ := hmem'
    obtain ⟨k1, it1⟩ := p
    refine ⟨it1, ?_, ?_⟩
    · rw [← hpe]
      exact mapLookup_of_mem_nodup hwf.1 hp
    · rw [← hpe]

/-- Claim C3: for an eviction-triggering `Set` (the value itself fits the
budget but `currentSize + incomingSize > maxSize`), the eviction candidate
list is an expiration-ascending permutation of the cache content, eviction
removes exactly a prefix of it — earliest-expiring first, decrementing
`currentSize` per removed entry, stopping as soon as the new entry fits or
the list is exhausted — and then: if the new entry now fits, `Set` succeeds
and leaves `currentSize ≤ maxSize`; otherwise `Set` fails with the
size-exceeded error in the evicted state. -/
theorem evict_set_spec (m : Manager) (now : Int) (key : String)
    (value : GoValue) (ttl : Int) (hwf : m.WF)
    (hsz : estimateSize value ≤ m.maxSize)
    (htrig : m.currentSize + estimateSize value > m.maxSize) :
    (sortByExpiration (snapshot m.items)).Perm (snapshot m.items) ∧
    List.Pairwise (fun a b => a.expiration ≤ b.expiration)
      (sortByExpiration (snapshot m.items)) ∧
    (∃ k, k ≤ (sortByExpiration (snapshot m.items)).length ∧
      m.evict (estimateSize value) =
        { items :=
            deleteKeys ((sortByExpiration (snapshot m.items)).take k)
              m.items,
          maxSize := m.maxSize,
          currentSize := m.currentSize -
            infoSizes ((sortByExpiration (snapshot m.items)).take k) } ∧
      (∀ j, j < k →
        m.currentSize -
            infoSizes ((sortByExpiration (snapshot m.items)).take j) +
          estimateSize value > m.maxSize) ∧
      (k < (sortByExpiration (snapshot m.items)).length →
        m.currentSize -
            infoSizes ((sortByExpiration (snapshot m.items)).take k) +
          estimateSize value ≤ m.maxSize)) ∧
    ((m.evict (estimateSize value)).currentSize + estimateSize value ≤
        m.maxSize →
      (m.set now key value ttl).2 = none ∧
      (m.set now key value ttl).1.currentSize ≤ m.maxSize) ∧
    ((m.evict (estimateSize value)).currentSize + estimateSize value >
        m.maxSize →
      m.set now key value ttl =
        (m.evict (estimateSize value), some GoError.sizeExceeded)) := by
  have hnotover : ¬ estimateSize value > m.maxSize := not_lt.mpr hsz
  refine ⟨sortByExpiration_perm _, sortByExpiration_sorted _, ?_, ?_, ?_⟩
  · exact evictLoop_spec (estimateSize value) _ m (wf_infosBound m hwf)
  · intro hfits
    have hcond2 : ¬ ((m.evict (estimateSize value)).currentSize +
        estimateSize value > (m.evict (estimateSize value)).maxSize) := by
      rw [evict_maxSize]
      exact not_lt.mpr hfits
    constructor
    · simp only [Manager.set]
      rw [if_neg hnotover, if_pos htrig, if_neg hcond2]
    · simp only [Manager.set]
      rw [if_neg hnotover, if_pos htrig, if_neg hcond2]
      show (m.evict (estimateSize value)).currentSize +
        estimateSize value ≤ m.maxSize
      exact hfits
  · intro hfail
    have hcond2 : (m.evict (estimateSize value)).currentSize +
        estimateSize value > (m.evict (estimateSize value)).maxSize := by
      rw [evict_maxSize]
      exact hfail
    simp only [Manager.set]
    rw [if_neg hnotover, if_pos htrig, if_pos hcond2]

end FaceEmotion

namespace FaceEmotion

/-- Concrete cache for the eviction witness: three entries with distinct
expirations (30, 10, 20), total size 10 = maxSize. -/
def evictDemo : Manager :=
  ⟨[("a", ⟨GoValue.goNil, 30, 4⟩), ("b", ⟨GoValue.goNil, 10, 4⟩),
    ("c", ⟨GoValue.goNil, 20, 2⟩)], 10, 10⟩

/-- Incoming value for the eviction witness (estimated size 4). -/
def evictDemoValue : GoValue := GoValue.goBytes [1, 2, 3, 4]

/-- Witness for `evict_set_spec`: setting a fourth 4-byte entry into a full
10-byte cache with entries expiring at 30, 10, 20 — the earliest-expiring
entry `"b"` is evicted first and the Set succeeds. -/
theorem evict_set_spec_witness :
    evictDemo.WF ∧
    estimateSize evictDemoValue ≤ evictDemo.maxSize ∧
    evictDemo.currentSize + estimateSize evictDemoValue >
      evictDemo.maxSize ∧
    ((sortByExpiration (snapshot evictDemo.items)).Perm
        (snapshot evictDemo.items) ∧
     List.Pairwise (fun a b => a.expiration ≤ b.expiration)
       (sortByExpiration (snapshot evictDemo.items)) ∧
     (∃ k, k ≤ (sortByExpiration (snapshot evictDemo.items)).length ∧
       evictDemo.evict (estimateSize evictDemoValue) =
         { items :=
             deleteKeys
               ((sortByExpiration (snapshot evictDemo.items)).take k)
               evictDemo.items,
           maxSize := evictDemo.maxSize,
           currentSize := evictDemo.currentSize -
             infoSizes
               ((sortByExpiration (snapshot evictDemo.items)).take k) } ∧
       (∀ j, j < k →
         evictDemo.currentSize -
             infoSizes
               ((sortByExpiration (snapshot evictDemo.items)).take j) +
           estimateSize evictDemoValue > evictDemo.maxSize) ∧
       (k < (sortByExpiration (snapshot evictDemo.items)).length →
         evictDemo.currentSize -
             infoSizes
               ((sortByExpiration (snapshot evictDemo.items)).take k) +
           estimateSize evictDemoValue ≤ evictDemo.maxSize)) ∧
     ((evictDemo.evict (estimateSize evictDemoValue)).currentSize +
         estimateSize evictDemoValue ≤ evictDemo.maxSize →
       (evictDemo.set 0 "d" evictDemoValue 100).2 = none ∧
       (evictDemo.set 0 "d" evictDemoValue 100).1.currentSize ≤
         evictDemo.maxSize) ∧
     ((evictDemo.evict (estimateSize evictDemoValue)).currentSize +
         estimateSize evictDemoValue > evictDemo.maxSize →
       evictDemo.set 0 "d" evictDemoValue 100 =
         (evictDemo.evict (estimateSize evictDemoValue),
          some GoError.sizeExceeded))) :=
  ⟨by decide, by decide, by decide,
   evict_set_spec evictDemo 0 "d" evictDemoValue 100
     (by decide) (by decide) (by decide)⟩

end FaceEmotion

namespace FaceEmotion

/-! ## Worker pool (`internal/worker/pool.go`)

The pool's concurrency is embedded two ways: the scaling/counter behaviour
as a labelled transition system over an abstract pool state (claims about
invariants over reachable states), and `Submit`/`Shutdown` as sequential
functions over the lifecycle flags (claims about their contracts in the
uncontended interleaving). -/

/-- Errors produced by the worker pool: the three `errors.New` messages of
`pool.go`, the caller context's error, and errors returned by task
bodies. -/
inductive PoolError where
  | nilTaskFunc : PoolError
  | poolIsShutdown : PoolError
  | poolShuttingDown : PoolError
  | ctxError : PoolError
  | taskError : String → PoolError
deriving DecidableEq, Repr

/-- Embedding of the pool's local `min` helper on int32 (pool.go,
lines 211–216). -/
def goMin (a b : Int) : Int :=
  if a < b then a else b

/-- `NewPool` clamping: `if minWorkers <= 0 { minWorkers = 1 }`. -/
def clampMin (minW : Int) : Int :=
  if minW ≤ 0 then 1 else minW

/-- `NewPool` clamping: `if maxWorkers < minWorkers { maxWorkers =
minWorkers }`, applied after the min clamp. -/
def clampMax (minW maxW : Int) : Int :=
  if maxW < clampMin minW then clampMin minW else maxW

/-- Workers spawned by one `monitorWorkers` tick (pool.go, lines 192–198).
The Go comparison `float64(queueSize) > float64(currentWorkers)*0.75` is
exact for int32-range operands in float64 and equals
`4*queueSize > 3*currentWorkers`. -/
def scaleUpCount (maxW : Int) (queueSize : Nat) (current : Int) : Int :=
  if 4 * (queueSize : Int) > 3 * current ∧ current < maxW then
    goMin (maxW - current) 2
  else 0

/-- Worker-counter decrement of one `monitorWorkers` tick (pool.go,
lines 201–205).  `int(currentWorkers)/4` is Go's truncated integer
division, `Int.tdiv`. -/
def scaleDownCount (minW : Int) (queueSize : Nat) (current : Int) : Int :=
  if (queueSize : Int) < Int.tdiv current 4 ∧ current > minW then
    goMin (current - minW) 1
  else 0

/-- Net effect of one tick of `monitorWorkers` on the `activeWorkers`
counter.  Both `if` statements of the loop body read the `queueSize` and
`currentWorkers` values loaded at the start of the tick (the second `if`
does not reload the counter). -/
def monitorTick (minW maxW : Int) (queueSize : Nat) (active : Int) : Int :=
  active + scaleUpCount maxW queueSize active -
    scaleDownCount minW queueSize active

/-- The two scaling conditions of one tick cannot hold together: with a
non-negative worker count, `queueSize < current/4` forces
`4*queueSize < current ≤ 3*current`, contradicting
`4*queueSize > 3*current`. -/
theorem scale_conditions_exclusive (q : Nat) (c : Int) (hc : 0 ≤ c) :
    ¬ (4 * (q : Int) > 3 * c ∧ (q : Int) < Int.tdiv c 4) := by
  rintro ⟨h1, h2⟩
  rw [Int.tdiv_eq_ediv hc (by norm_num)] at h2
  omega

end FaceEmotion

namespace FaceEmotion

/-- Claim C4: one monitor tick of a non-shut-down pool behaves as an
else-if ladder (the two conditions are mutually exclusive): under backlog
(`queueLength > 0.75·active` and headroom) exactly `min(max-active, 2)`
workers are added; under idleness (`queueLength < active/4` and
`active > min`) exactly `min(active-min, 1)` workers are retired; otherwise
the count is unchanged.  The count never drops below `minWorkers` and never
shrinks by more than one per tick. -/
theorem monitorTick_spec (minW maxW : Int) (q : Nat) (c : Int)
    (hmin1 : 1 ≤ minW) (hc : minW ≤ c) (hcmax : c ≤ maxW) :
    (4 * (q : Int) > 3 * c ∧ c < maxW →
      monitorTick minW maxW q c = c + goMin (maxW - c) 2) ∧
    (¬ (4 * (q : Int) > 3 * c ∧ c < maxW) →
      (q : Int) < Int.tdiv c 4 ∧ c > minW →
      monitorTick minW maxW q c = c - goMin (c - minW) 1) ∧
    (¬ (4 * (q : Int) > 3 * c ∧ c < maxW) →
      ¬ ((q : Int) < Int.tdiv c 4 ∧ c > minW) →
      monitorTick minW maxW q c = c) ∧
    minW ≤ monitorTick minW maxW q c ∧
    c - monitorTick minW maxW q c ≤ 1 := by
  have hc0 : (0 : Int) ≤ c := by omega
  have hexcl := scale_conditions_exclusive q c hc0
  have heq1 : 4 * (q : Int) > 3 * c ∧ c < maxW →
      monitorTick minW maxW q c = c + goMin (maxW - c) 2 := by
    intro h1
    have hdown : scaleDownCount minW q c = 0 := by
      unfold scaleDownCount
      rw [if_neg]
      rintro ⟨h2a, _⟩
      exact hexcl ⟨h1.1, h2a⟩
    unfold monitorTick scaleUpCount
    rw [if_pos h1, hdown]
    ring
  have heq2 : ¬ (4 * (q : Int) > 3 * c ∧ c < maxW) →
      (q : Int) < Int.tdiv c 4 ∧ c > minW →
      monitorTick minW maxW q c = c - goMin (c - minW) 1 := by
    intro h1 h2
    have hup : scaleUpCount maxW q c = 0 := by
      unfold scaleUpCount
      rw [if_neg h1]
    unfold monitorTick scaleDownCount
    rw [hup, if_pos h2]
    ring
  have heq3 : ¬ (4 * (q : Int) > 3 * c ∧ c < maxW) →
      ¬ ((q : Int) < Int.tdiv c 4 ∧ c > minW) →
      monitorTick minW maxW q c = c := by
    intro h1 h2
    have hup : scaleUpCount maxW q c = 0 := by
      unfold scaleUpCount
      rw [if_neg h1]
    have hdown : scaleDownCount minW q c = 0 := by
      unfold scaleDownCount
      rw [if_neg h2]
    unfold monitorTick
    rw [hup, hdown]
    ring
  refine ⟨heq1, heq2, heq3, ?_, ?_⟩
  · by_cases h1 : 4 * (q : Int) > 3 * c ∧ c < maxW
    · rw [heq1 h1]
      have hlt := h1.2
      unfold goMin
      split_ifs <;> omega
    · by_cases h2 : (q : Int) < Int.tdiv c 4 ∧ c > minW
      · rw [heq2 h1 h2]
        have hgt := h2.2
        unfold goMin
        split_ifs <;> omega
      · rw [heq3 h1 h2]
        omega
  · by_cases h1 : 4 * (q : Int) > 3 * c ∧ c < maxW
    · rw [heq1 h1]
      have hlt := h1.2
      unfold goMin
      split_ifs <;> omega
    · by_cases h2 : (q : Int) < Int.tdiv c 4 ∧ c > minW
      · rw [heq2 h1 h2]
        have hgt := h2.2
        unfold goMin
        split_ifs <;> omega
      · rw [heq3 h1 h2]
        omega

/-- Witness for `monitorTick_spec`: `min=1, max=4, queue=3, active=2` — the
backlog condition holds (`4·3 > 3·2`) and the tick adds
`min(4-2, 2) = 2` workers. -/
theorem monitorTick_spec_witness :
    (1 : Int) ≤ 1 ∧ (1 : Int) ≤ 2 ∧ (2 : Int) ≤ 4 ∧
    ((4 * ((3 : Nat) : Int) > 3 * 2 ∧ (2 : Int) < 4 →
      monitorTick 1 4 3 2 = 2 + goMin (4 - 2) 2) ∧
    (¬ (4 * ((3 : Nat) : Int) > 3 * 2 ∧ (2 : Int) < 4) →
      ((3 : Nat) : Int) < Int.tdiv 2 4 ∧ (2 : Int) > 1 →
      monitorTick 1 4 3 2 = 2 - goMin (2 - 1) 1) ∧
    (¬ (4 * ((3 : Nat) : Int) > 3 * 2 ∧ (2 : Int) < 4) →
      ¬ (((3 : Nat) : Int) < Int.tdiv 2 4 ∧ (2 : Int) > 1) →
      monitorTick 1 4 3 2 = 2) ∧
    (1 : Int) ≤ monitorTick 1 4 3 2 ∧
    (2 : Int) - monitorTick 1 4 3 2 ≤ 1) :=
  ⟨by decide, by decide, by decide,
   monitorTick_spec 1 4 3 2 (by decide) (by decide) (by decide)⟩

end FaceEmotion

namespace FaceEmotion

/-- Embedding of the `Result` struct sent on the results channel. -/
structure GoResult where
  value : GoValue
  err : Option PoolError

/-- Embedding of `Task`: `execute` is the Go pair `Execute(ctx)` returns
when run; `none` models a task whose `Execute` field is nil.  (`Priority`
is never read by the pool.) -/
structure GoTask where
  execute : Option (GoValue × Option PoolError)

/-- One task-processing round of `worker.run` (pool.go, lines 76–96): run
the body and build `Result{Value: result, Err: err}`. -/
def workerRunTask (exec : GoValue × Option PoolError) : GoResult :=
  ⟨exec.1, exec.2⟩

/-- Embedding of `Pool.Submit` (pool.go, lines 249–286) in the sequential
uncontended interleaving: the caller's context does not expire, the task
queue has room (capacity `4·maxWorkers ≥ 4`), a worker picks the task up,
executes it and sends the result, and this Submit receives that result.
Returns the Go pair `(interface{}, error)` plus whether a task was
enqueued. -/
def submitSeq (isShutdown : Bool) (task : GoTask) :
    (GoValue × Option PoolError) × Bool :=
  match task.execute with
  | none => ((.goNil, some .nilTaskFunc), false)
  | some exec =>
      if isShutdown then ((.goNil, some .poolIsShutdown), false)
      else
        let r := workerRunTask exec
        match r.err with
        | some e => ((.goNil, some e), true)
        | none => ((r.value, none), true)

/-- Claim C5: `Submit` fails immediately — without enqueuing — with the
nil-task error when the task has no executable body, and with the
shutdown lifecycle error when the pool is already shut down (two
distinguishable errors); otherwise, a task body returning `(v, nil)` makes
Submit return `(v, nil)`, and a task body returning an error `e` makes
Submit return that same `e` (with the Go nil value). -/
theorem submit_spec (exec : GoValue × Option PoolError) (v : GoValue)
    (e : PoolError) (sd : Bool) :
    submitSeq sd ⟨none⟩ = ((.goNil, some .nilTaskFunc), false) ∧
    submitSeq true ⟨some exec⟩ = ((.goNil, some .poolIsShutdown), false) ∧
    submitSeq false ⟨some (v, none)⟩ = ((v, none), true) ∧
    submitSeq false ⟨some (v, some e)⟩ = ((.goNil, some e), true) ∧
    decide (PoolError.nilTaskFunc = PoolError.poolIsShutdown) = false := by
  refine ⟨?_, rfl, rfl, rfl, by decide⟩
  cases sd <;> rfl

/-- Witness for `submit_spec`: a concrete task body returning the Go nil
value and no error, on a live pool. -/
theorem submit_spec_witness :
    submitSeq false ⟨none⟩ =
      ((GoValue.goNil, some PoolError.nilTaskFunc), false) ∧
    submitSeq true ⟨some (GoValue.goNil, none)⟩ =
      ((GoValue.goNil, some PoolError.poolIsShutdown), false) ∧
    submitSeq false ⟨some (GoValue.goNil, none)⟩ =
      ((GoValue.goNil, none), true) ∧
    submitSeq false ⟨some (GoValue.goNil, some PoolError.ctxError)⟩ =
      ((GoValue.goNil, some PoolError.ctxError), true) ∧
    decide (PoolError.nilTaskFunc = PoolError.poolIsShutdown) = false :=
  submit_spec (GoValue.goNil, none) GoValue.goNil PoolError.ctxError false

/-- Lifecycle flags of the pool as seen by `Shutdown` and `Submit`. -/
structure PoolLifecycle where
  shutdownDone : Bool
  isShutdown : Bool
  shutdownChanClosed : Bool
  tasksClosed : Bool
  resultsClosed : Bool
deriving DecidableEq, Repr

/-- Lifecycle state of a freshly created pool. -/
def initLifecycle : PoolLifecycle :=
  ⟨false, false, false, false, false⟩

/-- Embedding of `Pool.Shutdown` (pool.go, lines 219–246).  The
`sync.Once` body runs only when `shutdownDone` is still false: it stores
the shutdown flag and closes the shutdown channel, then waits;
`ctxExpiresFirst` tells which side of the final select fires — the
caller's context (whose `ctx.Err()` is `ctxErr`), or the WaitGroup
drain, which closes both channels. -/
def shutdownStep (p : PoolLifecycle) (ctxExpiresFirst : Bool)
    (ctxErr : PoolError) : PoolLifecycle × Option PoolError :=
  if p.shutdownDone then (p, none)
  else
    let p1 : PoolLifecycle :=
      { p with shutdownDone := true, isShutdown := true,
               shutdownChanClosed := true }
    if ctxExpiresFirst then (p1, some ctxErr)
    else ({ p1 with tasksClosed := true, resultsClosed := true }, none)

/-- Claim C6: the first `Shutdown` call flips the flag and closes the
shutdown signal; if the workers drain before the context expires it closes
both channels and returns nil, and if the context expires first it returns
the context's error leaving both channels as they were (open); any
subsequent call does no shutdown work and returns nil; and after a
first (successful or not) `Shutdown` every later `Submit` fails with the
shutdown lifecycle error without enqueuing. -/
theorem shutdown_spec (p : PoolLifecycle) (ctxErr : PoolError) :
    (p.shutdownDone = false →
      shutdownStep p false ctxErr =
        ({ p with shutdownDone := true, isShutdown := true,
                  shutdownChanClosed := true, tasksClosed := true,
                  resultsClosed := true }, none)) ∧
    (p.shutdownDone = false →
      shutdownStep p true ctxErr =
        ({ p with shutdownDone := true, isShutdown := true,
                  shutdownChanClosed := true }, some ctxErr)) ∧
    (p.shutdownDone = true →
      shutdownStep p false ctxErr = (p, none) ∧
      shutdownStep p true ctxErr = (p, none)) ∧
    (p.shutdownDone = false → ∀ exec b,
      submitSeq (shutdownStep p b ctxErr).1.isShutdown ⟨some exec⟩ =
        ((.goNil, some .poolIsShutdown), false)) := by
  refine ⟨?_, ?_, ?_, ?_⟩
  · intro h
    simp [shutdownStep, h]
  · intro h
    simp [shutdownStep, h]
  · intro h
    constructor <;> simp [shutdownStep, h]
  · intro h exec b
    have hsd : (shutdownStep p b ctxErr).1.isShutdown = true := by
      cases b <;> simp [shutdownStep, h]
    rw [hsd]
    rfl

/-- Witness for `shutdown_spec`: a fresh pool; draining shutdown closes
everything and returns nil, context-expiring shutdown returns the context
error with channels open, a second call is a no-op returning nil, and a
subsequent Submit is rejected. -/
theorem shutdown_spec_witness :
    initLifecycle.shutdownDone = false ∧
    shutdownStep initLifecycle false PoolError.ctxError =
      (⟨true, true, true, true, true⟩, none) ∧
    shutdownStep initLifecycle true PoolError.ctxError =
      (⟨true, true, true, false, false⟩, some PoolError.ctxError) ∧
    (shutdownStep ⟨true, true, true, true, true⟩ false PoolError.ctxError =
      (⟨true, true, true, true, true⟩, none) ∧
     shutdownStep ⟨true, true, true, true, true⟩ true PoolError.ctxError =
      (⟨true, true, true, true, true⟩, none)) ∧
    submitSeq
        (shutdownStep initLifecycle false PoolError.ctxError).1.isShutdown
        ⟨some (GoValue.goNil, none)⟩ =
      ((GoValue.goNil, some PoolError.poolIsShutdown), false) := by
  have h := shutdown_spec initLifecycle PoolError.ctxError
  have h2 := (shutdown_spec ⟨true, true, true, true, true⟩
    PoolError.ctxError).2.2.1 rfl
  exact ⟨rfl, h.1 rfl, h.2.1 rfl, h2, h.2.2.2 rfl (GoValue.goNil, none) false⟩

end FaceEmotion

namespace FaceEmotion

theorem monitorTick_le_max (mn mx : Int) (q : Nat) (c : Int)
    (hmx : c ≤ mx) : monitorTick mn mx q c ≤ mx := by
  unfold monitorTick scaleUpCount scaleDownCount goMin
  split_ifs <;> omega

theorem monitorTick_ge_min (mn mx : Int) (q : Nat) (c : Int)
    (hmn : mn ≤ c) : mn ≤ monitorTick mn mx q c := by
  unfold monitorTick scaleUpCount scaleDownCount goMin
  split_ifs <;> omega

/-- Pool state for the reachability analysis: the `activeWorkers` counter,
the number of live worker goroutines, the task-queue length, and the
shutdown flag. -/
structure PoolState where
  active : Int
  live : Nat
  queue : Nat
  shutdown : Bool
deriving DecidableEq, Repr

/-- Embedding of `NewPool` (pool.go, lines 140–168): clamps the bounds and
starts `minWorkers` workers (counter and goroutines). -/
def initPool (minW maxW : Int) : PoolState :=
  { active := clampMin minW, live := (clampMin minW).toNat, queue := 0,
    shutdown := false }

/-- Events of the pool, over already-clamped bounds `mn`, `mx`:

* `tick` — one `monitorWorkers` iteration (runs only while not shut down;
  pool.go, lines 186–188 return on the shutdown flag); scale-up starts
  goroutines, scale-down only decrements the counter — no goroutine exits;
* `enqueue`/`dequeue` — the task channel gains or loses one element;
* `shutdown` — the `Shutdown` body runs (flag set, shutdown channel
  closed);
* `workerExit` — a worker goroutine returns, which requires the closed
  shutdown channel (or closed task channel), i.e. shutdown must have been
  initiated; the deferred handler decrements `activeWorkers` (pool.go,
  lines 64–68). -/
inductive PoolStep (mn mx : Int) : PoolState → PoolState → Prop
  | tick (s : PoolState) (h : s.shutdown = false) :
      PoolStep mn mx s
        { s with active := monitorTick mn mx s.queue s.active,
                 live := s.live + (scaleUpCount mx s.queue s.active).toNat }
  | enqueue (s : PoolState) (h : s.shutdown = false) :
      PoolStep mn mx s { s with queue := s.queue + 1 }
  | dequeue (s : PoolState) (h : 0 < s.queue) :
      PoolStep mn mx s { s with queue := s.queue - 1 }
  | shutdown (s : PoolState) :
      PoolStep mn mx s { s with shutdown := true }
  | workerExit (s : PoolState) (hsd : s.shutdown = true)
      (hl : 0 < s.live) :
      PoolStep mn mx s { s with active := s.active - 1, live := s.live - 1 }

/-- States reachable from `NewPool(minW, maxW)` (raw, unclamped
arguments). -/
def PoolReachable (minW maxW : Int) (s : PoolState) : Prop :=
  Relation.ReflTransGen (PoolStep (clampMin minW) (clampMax minW maxW))
    (initPool minW maxW) s

end FaceEmotion

namespace FaceEmotion

/-- Claim C2 as stated is false: the invariant `minWorkers ≤ activeWorkers`
does not survive `Shutdown`.  From `NewPool(1, 4)`, running `Shutdown` and
letting the single worker goroutine exit reaches a state with
`activeWorkers = 0 < 1 = minWorkers`. -/
theorem pool_invariant_counterexample :
    ¬ (∀ s, PoolReachable 1 4 s →
        1 ≤ s.active ∧ s.active ≤ 4) := by
  intro hinv
  have h1 : PoolStep (clampMin 1) (clampMax 1 4) (initPool 1 4)
      ⟨1, 1, 0, true⟩ :=
    PoolStep.shutdown (initPool 1 4)
  have h2 : PoolStep (clampMin 1) (clampMax 1 4) ⟨1, 1, 0, true⟩
      ⟨0, 0, 0, true⟩ :=
    PoolStep.workerExit ⟨1, 1, 0, true⟩ rfl (by decide)
  have hreach : PoolReachable 1 4 ⟨0, 0, 0, true⟩ :=
    Relation.ReflTransGen.head h1 (Relation.ReflTransGen.single h2)
  exact absurd (hinv ⟨0, 0, 0, true⟩ hreach).1 (by decide)

end FaceEmotion

namespace FaceEmotion

/-- Claim C2 amended: in every reachable state of `NewPool(minW, maxW)` the
`activeWorkers` counter never exceeds the clamped `maxWorkers`, and in
every reachable state in which shutdown has not been initiated it also
stays at or above the clamped `minWorkers`.  (After shutdown the lower
bound is lost: every worker exit decrements the counter down to zero — or
below it when monitor scale-downs already decremented the counter without
stopping a goroutine.) -/
theorem pool_worker_bounds (minW maxW : Int) (s : PoolState)
    (h : PoolReachable minW maxW s) :
    s.active ≤ clampMax minW maxW ∧
    (s.shutdown = false → clampMin minW ≤ s.active) := by
  have hmnmx : clampMin minW ≤ clampMax minW maxW := by
    unfold clampMax
    split <;> omega
  induction h with
  | refl =>
      refine ⟨hmnmx, fun _ => le_refl _⟩
  | tail hab hbc ih =>
      obtain ⟨ihmax, ihmin⟩ := ih
      cases hbc with
      | tick hsd =>
          refine ⟨?_, fun _ => ?_⟩
          · exact monitorTick_le_max _ _ _ _ ihmax
          · exact monitorTick_ge_min _ _ _ _ (ihmin hsd)
      | enqueue hsd => exact ⟨ihmax, fun _ => ihmin hsd⟩
      | dequeue hq => exact ⟨ihmax, fun hs => ihmin hs⟩
      | shutdown =>
          refine ⟨ihmax, fun hcontra => ?_⟩
          exact absurd hcontra (by simp)
      | workerExit hsd hl =>
          refine ⟨?_, fun hcontra => ?_⟩
          · show _ + (-1) ≤ clampMax minW maxW
            omega
          · dsimp only at hcontra
            rw [hsd] at hcontra
            exact absurd hcontra (by decide)

/-- Witness for `pool_worker_bounds`: the initial state of `NewPool(1, 4)`
is reachable and satisfies both bounds. -/
theorem pool_worker_bounds_witness :
    PoolReachable 1 4 (initPool 1 4) ∧
    ((initPool 1 4).active ≤ clampMax 1 4 ∧
     ((initPool 1 4).shutdown = false →
       clampMin 1 ≤ (initPool 1 4).active)) :=
  ⟨Relation.ReflTransGen.refl,
   pool_worker_bounds 1 4 (initPool 1 4) Relation.ReflTransGen.refl⟩

end FaceEmotion
